import Mathlib

/-!
Verification of the tldw transcript core (src/lib/transcript.ts and
src/content/youtube.ts) against its natural-language specification.

The TypeScript source is shallowly embedded: numbers (floats holding second
offsets and millisecond counts, always exact decimals here) become `ℚ`,
strings become `String`/`List Char`, and the JS platform primitives the code
relies on (String.prototype.split / trim / padStart / replace with a literal
pattern, Number(), parseFloat, parseInt, Math.floor, %, JSON.parse and the
specific regular expressions appearing in the source) are modelled by
explicit executable Lean functions next to their uses.  Scanning loops are
written with an explicit fuel argument bounded by the input length, which
keeps every definition structurally recursive and kernel-computable; the
fuel chosen is always sufficient for the scan to run to completion.
-/

/-! ## Character and string primitives (models of JS built-ins) -/

/-- Decimal digit test, the model of the regex class backslash-d (ASCII). -/
def isDigitChar (c : Char) : Bool := 48 ≤ c.toNat && c.toNat ≤ 57

/-- Character for a single decimal digit, used by the decimal renderer. -/
def digitChar (d : ℕ) : Char := Char.ofNat (48 + d)

/-- Whitespace as JS trim / the regex class backslash-s sees it (the ASCII
part; the transcripts in the claims contain no exotic Unicode spaces). -/
def isJsWs (c : Char) : Bool :=
  c == ' ' || c == '\n' || c == '\t' || c == '\r' || c == '\x0b' || c == '\x0c'

/-- Model of JS String.prototype.trim on a character list. -/
def jsTrim (cs : List Char) : List Char :=
  ((cs.dropWhile isJsWs).reverse.dropWhile isJsWs).reverse

/-- Model of JS String.prototype.split with a single-character separator:
split("x") on "" gives [""], separators at the ends give empty pieces. -/
def jsSplitOn (sep : Char) : List Char → List (List Char)
  | [] => [[]]
  | c :: cs =>
    if c = sep then [] :: jsSplitOn sep cs
    else
      match jsSplitOn sep cs with
      | [] => [[c]]
      | p :: ps => (c :: p) :: ps

/-- Scan up to the first occurrence of a stop character: returns the piece
before it and the piece after it, or none when the character is absent.
This models a greedy negated character class followed by the stop char. -/
def takeUntil (stop : Char) : List Char → Option (List Char × List Char)
  | [] => none
  | c :: cs =>
    if c = stop then some ([], cs)
    else
      match takeUntil stop cs with
      | some (pre, post) => some (c :: pre, post)
      | none => none

/-- Leftmost occurrence of a literal pattern: the text before it and the text
after it, or none.  Models both a lazy group stopped by a literal and the
search step of a global regex whose match begins with that literal. -/
def findSplit (pat : List Char) : List Char → Option (List Char × List Char)
  | [] => if pat = [] then some ([], []) else none
  | c :: cs =>
    if pat.isPrefixOf (c :: cs) then some ([], (c :: cs).drop pat.length)
    else
      match findSplit pat cs with
      | some (pre, post) => some (c :: pre, post)
      | none => none

/-- Longest leading run of decimal digits and the remainder. -/
def takeDigitsRun : List Char → List Char × List Char
  | [] => ([], [])
  | c :: cs =>
    if isDigitChar c then
      let (ds, r) := takeDigitsRun cs
      (c :: ds, r)
    else ([], c :: cs)

/-- Model of JS String.prototype.replace with a global literal pattern:
left-to-right, non-overlapping.  The fuel is the input length, which is
sufficient since every step consumes at least one character. -/
def replaceAllGo (pat repl : List Char) : ℕ → List Char → List Char
  | _, [] => []
  | 0, s => s
  | fuel + 1, c :: cs =>
    if pat.isPrefixOf (c :: cs) then
      repl ++ replaceAllGo pat repl fuel (List.drop (pat.length - 1) cs)
    else
      c :: replaceAllGo pat repl fuel cs

/-- Replace every occurrence of a (nonempty) literal pattern. -/
def replaceAll (pat repl s : List Char) : List Char :=
  replaceAllGo pat repl s.length s

/-! ## Decimal rendering and reading (models of toString / Number / parseInt) -/

/-- Little-endian digit characters of a natural number; fuel-driven, with
fuel n + 1 always sufficient. -/
def natReprRevGo : ℕ → ℕ → List Char
  | 0, _ => []
  | fuel + 1, n =>
    if n < 10 then [digitChar n]
    else digitChar (n % 10) :: natReprRevGo fuel (n / 10)

/-- Decimal representation of a natural number, the model of JS
Number.prototype.toString on a nonnegative integer-valued number. -/
def natRepr (n : ℕ) : List Char := (natReprRevGo (n + 1) n).reverse

/-- Model of JS toString on an integer-valued number of either sign. -/
def intRepr (i : ℤ) : List Char :=
  if i < 0 then '-' :: natRepr i.natAbs else natRepr i.toNat

/-- Model of JS String.prototype.padStart(2, "0"). -/
def padStart2 (cs : List Char) : List Char :=
  if 2 ≤ cs.length then cs else List.replicate (2 - cs.length) '0' ++ cs

/-- Value of a big-endian digit string (the fold JS number reading performs).
Digits are read as code − 48. -/
def digitsVal (cs : List Char) : ℕ :=
  cs.foldl (fun a c => 10 * a + (c.toNat - 48)) 0

/-- Value of a little-endian digit string, used to reason about natRepr. -/
def valLE : List Char → ℕ
  | [] => 0
  | c :: cs => (c.toNat - 48) + 10 * valLE cs

/-- Model of JS Number() on the strings this code feeds it.  A string of
decimal digits (including the empty string) evaluates to its decimal value;
on any other string JS yields NaN, which has no counterpart in ℚ: the model
returns none there and callers substitute 0, a path no claim exercises. -/
def jsNumber (cs : List Char) : Option ℚ :=
  if cs.all isDigitChar then some ((digitsVal cs : ℕ) : ℚ) else none

/-- Model of JS parseFloat on the attribute strings of caption cues:
an optional minus sign, digits, and an optional fraction.  For strings with
no leading numeric prefix JS yields NaN; the model returns 0 there, a path
no claim exercises. -/
def jsParseFloat (cs : List Char) : ℚ :=
  let (neg, cs1) : Bool × List Char :=
    match cs with
    | '-' :: r => (true, r)
    | _ => (false, cs)
  let (ds, r1) := takeDigitsRun cs1
  if ds = [] then 0
  else
    let intPart : ℚ := (digitsVal ds : ℕ)
    let frac : ℚ :=
      match r1 with
      | '.' :: r2 =>
        let (fs, _) := takeDigitsRun r2
        if fs = [] then 0 else ((digitsVal fs : ℕ) : ℚ) / (10 : ℚ) ^ fs.length
      | _ => 0
    (if neg then -1 else 1) * (intPart + frac)

/-! ## Arithmetic primitives (models of Math.floor and the JS % operator) -/

/-- Model of Math.floor on a (finite) JS number. -/
def jsFloor (x : ℚ) : ℤ := ⌊x⌋

/-- Truncation toward zero, the rounding JS division-remainder uses. -/
def jsTrunc (x : ℚ) : ℤ := if x < 0 then -⌊-x⌋ else ⌊x⌋

/-- Model of the JS % operator on finite numbers: the remainder keeps the
sign of the dividend, so x % y = x − y · trunc(x / y). -/
def jsMod (x y : ℚ) : ℚ := x - y * (jsTrunc (x / y) : ℚ)

/-! ## Data model (src/lib/transcript.ts) -/

/-- One caption unit, the TranscriptSegment interface of the source. -/
structure TranscriptSegment where
  text : String
  start : ℚ
  duration : ℚ
deriving DecidableEq

/-! ## Timestamp codec (formatTimestamp / parseTimestamp) -/

/-- Embedding of formatTimestamp (src/lib/transcript.ts lines 19-28). -/
def formatTimestamp (seconds : ℚ) : String :=
  let h : ℤ := jsFloor (seconds / 3600)
  let m : ℤ := jsFloor (jsMod seconds 3600 / 60)
  let s : ℤ := jsFloor (jsMod seconds 60)
  if 0 < h then
    String.mk (intRepr h ++ ':' :: (padStart2 (intRepr m) ++ ':' :: padStart2 (intRepr s)))
  else
    String.mk (intRepr m ++ ':' :: padStart2 (intRepr s))

/-- Embedding of parseTimestamp (src/lib/transcript.ts lines 30-36): split on
":", coerce each part with Number, then purely arithmetic combination with no
range validation.  A missing part or a NaN part is read as 0 here; the
source would propagate NaN, a path no claim exercises. -/
def parseTimestamp (timestamp : String) : ℚ :=
  let parts := (jsSplitOn ':' timestamp.toList).map (fun p => (jsNumber p).getD 0)
  if parts.length = 3 then
    parts.getD 0 0 * 3600 + parts.getD 1 0 * 60 + parts.getD 2 0
  else
    parts.getD 0 0 * 60 + parts.getD 1 0

/-! ## Entity decoder (decodeHtmlEntities) -/

/-- Embedding of decodeHtmlEntities (src/lib/transcript.ts lines 112-122):
eight global literal replacements applied in the source's order, the amp
rule first. -/
def decodeHtmlEntitiesList (text : List Char) : List Char :=
  replaceAll "&nbsp;".toList " ".toList <|
    replaceAll "&#x2F;".toList "/".toList <|
      replaceAll "&#x27;".toList "\x27".toList <|
        replaceAll "&#39;".toList "\x27".toList <|
          replaceAll "&quot;".toList "\"".toList <|
            replaceAll "&gt;".toList ">".toList <|
              replaceAll "&lt;".toList "<".toList <|
                replaceAll "&amp;".toList "&".toList text

/-- String-level wrapper for decodeHtmlEntities. -/
def decodeHtmlEntities (text : String) : String :=
  String.mk (decodeHtmlEntitiesList text.toList)

/-! ## Tag-cue XML parser (parseXmlTranscript) -/

/-- Attempt to complete one cue match directly after the literal
open-tag-and-start-attribute text.  Mirrors the continuation of the regex of
parseXmlTranscript: a nonempty run of non-quote characters (the start
attribute), the literal quote-space-dur text, a nonempty run of non-quote
characters (the dur attribute), a quote, any non-gt characters, a gt, then
the lazily matched content stopped by the closing tag.  Returns the two
attribute strings, the raw content, and the remainder after the match. -/
def xmlCueTail (cs : List Char) : Option (List Char × List Char × List Char × List Char) :=
  match takeUntil '"' cs with
  | none => none
  | some (g1, r1) =>
    if g1 = [] then none
    else if (" dur=\"".toList).isPrefixOf r1 then
      match takeUntil '"' (r1.drop 6) with
      | none => none
      | some (g2, r2) =>
        if g2 = [] then none
        else
          match takeUntil '>' r2 with
          | none => none
          | some (_, r3) =>
            match findSplit "</text>".toList r3 with
            | none => none
            | some (content, r4) => some (g1, g2, content, r4)
    else none

/-- Scanning loop of parseXmlTranscript: find each occurrence of the cue
opener, try to complete the match there, and on failure resume the search
right after the opener (the opener cannot overlap itself, so this visits
exactly the positions the JS regex engine would).  Fuel bounds the scan. -/
def parseXmlGo : ℕ → List Char → List TranscriptSegment
  | 0, _ => []
  | fuel + 1, cs =>
    match findSplit "<text start=\"".toList cs with
    | none => []
    | some (_, rest) =>
      match xmlCueTail rest with
      | none => parseXmlGo fuel rest
      | some (g1, g2, content, rest2) =>
        let text := jsTrim ((decodeHtmlEntitiesList content).map
          (fun c => if c = '\n' then ' ' else c))
        (if text ≠ [] then
          [⟨String.mk text, jsParseFloat g1, jsParseFloat g2⟩]
        else []) ++ parseXmlGo fuel rest2

/-- Embedding of parseXmlTranscript (src/lib/transcript.ts lines 88-107). -/
def parseXmlTranscript (xml : String) : List TranscriptSegment :=
  parseXmlGo (xml.toList.length + 1) xml.toList

/-! ## Structured-cue SRV3 parser (parseSrv3Transcript) -/

/-- Removal of opening sub-span tags, the model of the global regex that
deletes a lt-s head, any non-gt characters and a gt.  As in the engine, a
candidate with no closing gt is skipped and scanning resumes one character
later.  Fuel bounds the scan. -/
def removeSTagsGo : ℕ → List Char → List Char
  | _, [] => []
  | 0, s => s
  | fuel + 1, c :: cs =>
    if c = '<' then
      match cs with
      | 's' :: rest =>
        match takeUntil '>' rest with
        | some (_, after) => removeSTagsGo fuel after
        | none => c :: removeSTagsGo fuel cs
      | _ => c :: removeSTagsGo fuel cs
    else c :: removeSTagsGo fuel cs

/-- Remove the sub-span tags of an SRV3 cue body. -/
def removeSTags (cs : List Char) : List Char := removeSTagsGo cs.length cs

/-- Attempt to complete an SRV3 cue match directly after the literal
open-tag-and-t-attribute text: a nonempty digit run, the literal
quote-space-d text, a nonempty digit run, a quote, any non-gt characters, a
gt, then content stopped lazily by the closing tag. -/
def srv3CueTail (cs : List Char) : Option (List Char × List Char × List Char × List Char) :=
  let (g1, r1) := takeDigitsRun cs
  if g1 = [] then none
  else if ("\" d=\"".toList).isPrefixOf r1 then
    let (g2, r2) := takeDigitsRun (r1.drop 5)
    if g2 = [] then none
    else
      match r2 with
      | '"' :: r3 =>
        match takeUntil '>' r3 with
        | none => none
        | some (_, r4) =>
          match findSplit "</p>".toList r4 with
          | none => none
          | some (content, r5) => some (g1, g2, content, r5)
      | _ => none
  else none

/-- Scanning loop of parseSrv3Transcript, structured like parseXmlGo. -/
def parseSrv3Go : ℕ → List Char → List TranscriptSegment
  | 0, _ => []
  | fuel + 1, cs =>
    match findSplit "<p t=\"".toList cs with
    | none => []
    | some (_, rest) =>
      match srv3CueTail rest with
      | none => parseSrv3Go fuel rest
      | some (g1, g2, content, rest2) =>
        let cleaned := jsTrim ((replaceAll "</s>".toList [] (removeSTags content)).map
          (fun c => if c = '\n' then ' ' else c))
        let decoded := decodeHtmlEntitiesList cleaned
        (if decoded ≠ [] then
          [⟨String.mk decoded, (digitsVal g1 : ℚ) / 1000, (digitsVal g2 : ℚ) / 1000⟩]
        else []) ++ parseSrv3Go fuel rest2

/-- Embedding of parseSrv3Transcript (src/lib/transcript.ts lines 159-184).
Milestone values are parseInt of the digit captures divided by 1000. -/
def parseSrv3Transcript (text : String) : List TranscriptSegment :=
  parseSrv3Go (text.toList.length + 1) text.toList

/-! ## Event-stream JSON parser (parseJson3Transcript) -/

/-- Values produced by the model of JSON.parse. -/
inductive Json where
  | null
  | bool (b : Bool)
  | num (q : ℚ)
  | str (s : String)
  | arr (elems : List Json)
  | obj (members : List (String × Json))

/-- Truthiness of a parsed JSON value under JS coercion: null, false, 0 and
the empty string are falsy; every array and object is truthy. -/
def jsTruthy : Json → Bool
  | .null => false
  | .bool b => b
  | .num q => q != 0
  | .str s => s != ""
  | .arr _ => true
  | .obj _ => true

/-- Property read on a parsed JSON value: on an object the named member
(the last one when a key repeats, as JSON.parse keeps the last duplicate),
undefined — none — otherwise. -/
def jsGetField (v : Json) (key : String) : Option Json :=
  match v with
  | .obj members => (members.reverse.find? (fun m => m.1 == key)).map (·.2)
  | _ => none

/-- JSON whitespace. -/
def isJsonWs (c : Char) : Bool := c == ' ' || c == '\t' || c == '\n' || c == '\r'

/-- Skip JSON whitespace. -/
def skipJsonWs : List Char → List Char
  | [] => []
  | c :: cs => if isJsonWs c then skipJsonWs cs else c :: cs

/-- Unescape one backslash escape of a JSON string. -/
def jsonUnescape (c : Char) : Option Char :=
  match c with
  | '"' => some '"'
  | '\\' => some '\\'
  | '/' => some '/'
  | 'b' => some (Char.ofNat 8)
  | 'f' => some (Char.ofNat 12)
  | 'n' => some '\n'
  | 'r' => some '\r'
  | 't' => some '\t'
  | _ => none

/-- Value of one hexadecimal digit. -/
def hexDigitVal (c : Char) : Option ℕ :=
  if 48 ≤ c.toNat && c.toNat ≤ 57 then some (c.toNat - 48)
  else if 97 ≤ c.toNat && c.toNat ≤ 102 then some (c.toNat - 87)
  else if 65 ≤ c.toNat && c.toNat ≤ 70 then some (c.toNat - 55)
  else none

/-- Body of a JSON string after the opening quote: the decoded characters
and the remainder after the closing quote.  Unicode escapes become the
single code unit they name (surrogate pairing is not modelled; no claim
uses it). -/
def jsonStringBody : List Char → Option (List Char × List Char)
  | [] => none
  | '"' :: rest => some ([], rest)
  | '\\' :: 'u' :: a :: b :: c :: d :: rest =>
    match hexDigitVal a, hexDigitVal b, hexDigitVal c, hexDigitVal d with
    | some va, some vb, some vc, some vd =>
      match jsonStringBody rest with
      | some (tail, r) => some (Char.ofNat (((va * 16 + vb) * 16 + vc) * 16 + vd) :: tail, r)
      | none => none
    | _, _, _, _ => none
  | '\\' :: e :: rest =>
    match jsonUnescape e with
    | some ch =>
      match jsonStringBody rest with
      | some (tail, r) => some (ch :: tail, r)
      | none => none
    | none => none
  | c :: rest =>
    match jsonStringBody rest with
    | some (tail, r) => some (c :: tail, r)
    | none => none

/-- A JSON number at the head of the input: optional minus, an integer part
with no leading zero, optional fraction, optional exponent. -/
def jsonNumber (cs : List Char) : Option (ℚ × List Char) :=
  let (neg, cs1) : Bool × List Char :=
    match cs with
    | '-' :: r => (true, r)
    | _ => (false, cs)
  let (ds, r1) := takeDigitsRun cs1
  match ds with
  | [] => none
  | d0 :: drest =>
    if d0 = '0' ∧ drest ≠ [] then none
    else
      let (fs, r2) : List Char × List Char :=
        match r1 with
        | '.' :: r => takeDigitsRun r
        | _ => ([], r1)
      if r1 ≠ r2 ∧ fs = [] then none
      else
        let (hasExp, expNeg, es, r3) : Bool × Bool × List Char × List Char :=
          match r2 with
          | 'e' :: '+' :: r => (true, false, (takeDigitsRun r).1, (takeDigitsRun r).2)
          | 'e' :: '-' :: r => (true, true, (takeDigitsRun r).1, (takeDigitsRun r).2)
          | 'e' :: r => (true, false, (takeDigitsRun r).1, (takeDigitsRun r).2)
          | 'E' :: '+' :: r => (true, false, (takeDigitsRun r).1, (takeDigitsRun r).2)
          | 'E' :: '-' :: r => (true, true, (takeDigitsRun r).1, (takeDigitsRun r).2)
          | 'E' :: r => (true, false, (takeDigitsRun r).1, (takeDigitsRun r).2)
          | _ => (false, false, [], r2)
        if hasExp ∧ es = [] then none
        else
          let mant : ℚ := ((digitsVal (ds ++ fs) : ℕ) : ℚ) / (10 : ℚ) ^ fs.length
          let scaled : ℚ :=
            if hasExp then
              if expNeg then mant / (10 : ℚ) ^ digitsVal es
              else mant * (10 : ℚ) ^ digitsVal es
            else mant
          some ((if neg then -scaled else scaled), r3)

mutual

/-- One JSON value at the head of the input (whitespace first), with the
remainder.  Structural on the fuel; jsonParse passes enough for any input. -/
def jsonValue : ℕ → List Char → Option (Json × List Char)
  | 0, _ => none
  | fuel + 1, cs =>
    match skipJsonWs cs with
    | 'n' :: 'u' :: 'l' :: 'l' :: r => some (.null, r)
    | 't' :: 'r' :: 'u' :: 'e' :: r => some (.bool true, r)
    | 'f' :: 'a' :: 'l' :: 's' :: 'e' :: r => some (.bool false, r)
    | '"' :: r =>
      match jsonStringBody r with
      | some (body, r1) => some (.str (String.mk body), r1)
      | none => none
    | '[' :: r =>
      match skipJsonWs r with
      | ']' :: r1 => some (.arr [], r1)
      | _ =>
        match jsonElems fuel r with
        | some (es, r1) => some (.arr es, r1)
        | none => none
    | '{' :: r =>
      match skipJsonWs r with
      | '}' :: r1 => some (.obj [], r1)
      | _ =>
        match jsonMembers fuel r with
        | some (ms, r1) => some (.obj ms, r1)
        | none => none
    | c :: rest =>
      if c = '-' ∨ isDigitChar c then
        match jsonNumber (c :: rest) with
        | some (q, r1) => some (.num q, r1)
        | none => none
      else none
    | [] => none

/-- One or more comma-separated array elements, ending at the closing
bracket. -/
def jsonElems : ℕ → List Char → Option (List Json × List Char)
  | 0, _ => none
  | fuel + 1, cs =>
    match jsonValue fuel cs with
    | none => none
    | some (v, r) =>
      match skipJsonWs r with
      | ',' :: r1 =>
        match jsonElems fuel r1 with
        | some (vs, r2) => some (v :: vs, r2)
        | none => none
      | ']' :: r1 => some ([v], r1)
      | _ => none

/-- One or more comma-separated object members, ending at the closing
brace. -/
def jsonMembers : ℕ → List Char → Option (List (String × Json) × List Char)
  | 0, _ => none
  | fuel + 1, cs =>
    match skipJsonWs cs with
    | '"' :: r =>
      match jsonStringBody r with
      | none => none
      | some (key, r1) =>
        match skipJsonWs r1 with
        | ':' :: r2 =>
          match jsonValue fuel r2 with
          | none => none
          | some (v, r3) =>
            match skipJsonWs r3 with
            | ',' :: r4 =>
              match jsonMembers fuel r4 with
              | some (ms, r5) => some ((String.mk key, v) :: ms, r5)
              | none => none
            | '}' :: r4 => some ([(String.mk key, v)], r4)
            | _ => none
        | _ => none
    | _ => none

end

/-- Model of JSON.parse: a single JSON value consuming the whole input up to
trailing whitespace; none models the SyntaxError throw. -/
def jsonParse (s : String) : Option Json :=
  match jsonValue (2 * s.toList.length + 2) s.toList with
  | some (v, rest) => if skipJsonWs rest = [] then some v else none
  | none => none

/-- Text of one seg entry: the utf8 member when it is a string, the empty
string when the member is absent or falsy (the source's fallback).  A truthy
non-string utf8 value would be stringified by the JS join; that shape never
occurs in caption payloads and is not modelled. -/
def json3SegText (seg : Json) : List Char :=
  match jsGetField seg "utf8" with
  | some (.str s) => s.toList
  | _ => []

/-- Numeric member with the source's zero fallback: the tStartMs and
dDurationMs reads, where an absent or falsy member becomes 0.  A truthy
non-numeric member would be coerced by the JS division; that shape never
occurs in caption payloads and is not modelled. -/
def json3NumField (e : Json) (key : String) : ℚ :=
  match jsGetField e key with
  | some (.num q) => q
  | _ => 0

/-- Event loop of parseJson3Transcript.  An event with no segs member, or a
falsy one, is skipped; an array of segs is joined, trimmed and kept when
nonempty; a truthy segs value with no map method makes the JS loop throw a
TypeError that the surrounding catch swallows, so the segments pushed before
that point are returned — here, the recursion just stops. -/
def json3Events : List Json → List TranscriptSegment
  | [] => []
  | e :: rest =>
    match jsGetField e "segs" with
    | none => json3Events rest
    | some segsVal =>
      if jsTruthy segsVal then
        match segsVal with
        | .arr segs =>
          let segText := jsTrim (segs.map json3SegText).flatten
          if segText ≠ [] then
            ⟨String.mk segText,
              json3NumField e "tStartMs" / 1000,
              json3NumField e "dDurationMs" / 1000⟩ :: json3Events rest
          else json3Events rest
        | _ => []
      else json3Events rest

/-- Embedding of parseJson3Transcript (src/lib/transcript.ts lines 127-153).
A JSON.parse failure is swallowed by the catch, producing the empty list.
An events member that is not an array produces no segments either: a falsy
one is replaced by the empty array, iterating a string visits one-character
strings with no segs member, and any other truthy value makes the for-of
throw into the same catch before anything is pushed. -/
def parseJson3Transcript (text : String) : List TranscriptSegment :=
  match jsonParse text with
  | none => []
  | some data =>
    match jsGetField data "events" with
    | none => []
    | some ev =>
      if jsTruthy ev then
        match ev with
        | .arr events => json3Events events
        | _ => []
      else []

/-! ## Cue-text-block VTT parser (parseVttTranscript) -/

/-- Exactly two digits at the head of the input, with their value. -/
def twoDigits : List Char → Option (ℕ × List Char)
  | a :: b :: rest =>
    if isDigitChar a ∧ isDigitChar b then
      some (10 * (a.toNat - 48) + (b.toNat - 48), rest)
    else none
  | _ => none

/-- Exactly three digits at the head of the input, with their value. -/
def threeDigits : List Char → Option (ℕ × List Char)
  | a :: b :: c :: rest =>
    if isDigitChar a ∧ isDigitChar b ∧ isDigitChar c then
      some (100 * (a.toNat - 48) + 10 * (b.toNat - 48) + (c.toNat - 48), rest)
    else none
  | _ => none

/-- One VTT timestamp at the head of the input: the optional-hours form
first (two digits and a colon three times over would clash, so the two
alternatives of the regex are mutually exclusive at any one position), then
the minutes-seconds form.  Seconds are returned as an exact rational. -/
def vttTimestampAt (cs : List Char) : Option (ℚ × List Char) :=
  match twoDigits cs with
  | none => none
  | some (v1, r1) =>
    match r1 with
    | ':' :: r2 =>
      match twoDigits r2 with
      | none => none
      | some (v2, r3) =>
        match r3 with
        | ':' :: r4 =>
          match twoDigits r4 with
          | none => none
          | some (v3, r5) =>
            match r5 with
            | '.' :: r6 =>
              match threeDigits r6 with
              | none => none
              | some (ms, r7) =>
                some ((v1 * 3600 + v2 * 60 + v3 : ℕ) + (ms : ℚ) / 1000, r7)
            | _ => none
        | '.' :: r4 =>
          match threeDigits r4 with
          | none => none
          | some (ms, r5) =>
            some ((v1 * 60 + v2 : ℕ) + (ms : ℚ) / 1000, r5)
        | _ => none
    | _ => none

/-- Attempt the full timing pattern at one position: a timestamp, optional
whitespace, the arrow, optional whitespace, a second timestamp. -/
def vttTimingAt (cs : List Char) : Option (ℚ × ℚ) :=
  match vttTimestampAt cs with
  | none => none
  | some (t1, r1) =>
    let r2 := r1.dropWhile isJsWs
    if ("-->".toList).isPrefixOf r2 then
      match vttTimestampAt ((r2.drop 3).dropWhile isJsWs) with
      | some (t2, _) => some (t1, t2)
      | none => none
    else none

/-- Unanchored search of the timing pattern in a line, the model of
String.prototype.match with the timing regex: the match attempt runs at
every position until one succeeds. -/
def vttFindTiming : List Char → Option (ℚ × ℚ)
  | [] => none
  | c :: cs =>
    match vttTimingAt (c :: cs) with
    | some r => some r
    | none => vttFindTiming cs

/-- Removal of angle-bracket tags from a caption line, the model of the
global regex deleting a lt, one or more non-gt characters and a gt.  An
empty pair or an unclosed lt is left in place and scanning resumes one
character later, as in the engine. -/
def stripAngleTagsGo : ℕ → List Char → List Char
  | _, [] => []
  | 0, s => s
  | fuel + 1, c :: cs =>
    if c = '<' then
      match takeUntil '>' cs with
      | some (inner, after) =>
        if inner ≠ [] then stripAngleTagsGo fuel after
        else c :: stripAngleTagsGo fuel cs
      | none => c :: stripAngleTagsGo fuel cs
    else c :: stripAngleTagsGo fuel cs

/-- Strip angle-bracket tags from one line. -/
def stripAngleTags (cs : List Char) : List Char := stripAngleTagsGo cs.length cs

/-- Line loop of parseVttTranscript, carrying the current start (−1 meaning
not set), the current duration and the accumulated cue text, and emitting
segments in source order.  The branches mirror the source: a timing line
flushes any open cue and opens a new one; a nonempty line that is neither a
WEBVTT header nor a bare cue number accumulates text once a timing was seen,
tags stripped and pieces joined by single spaces; a blank line closes an
open nonempty cue; anything else is ignored.  After the last line an open
nonempty cue is flushed. -/
def vttLines (start dur : ℚ) (text : List Char) : List (List Char) → List TranscriptSegment
  | [] =>
    if text ≠ [] ∧ 0 ≤ start then [⟨String.mk text, start, dur⟩] else []
  | rawLine :: rest =>
    let line := jsTrim rawLine
    match vttFindTiming line with
    | some (t1, t2) =>
      (if 0 ≤ start ∧ text ≠ [] then [⟨String.mk text, start, dur⟩] else []) ++
        vttLines t1 (t2 - t1) [] rest
    | none =>
      if line ≠ [] ∧ ¬ (("WEBVTT".toList).isPrefixOf line) ∧
          ¬ (line ≠ [] ∧ line.all isDigitChar) ∧ 0 ≤ start then
        let clean := jsTrim (stripAngleTags line)
        if clean ≠ [] then
          vttLines start dur (text ++ (if text ≠ [] then ' ' :: clean else clean)) rest
        else vttLines start dur text rest
      else if line = [] ∧ text ≠ [] ∧ 0 ≤ start then
        ⟨String.mk text, start, dur⟩ :: vttLines (-1) dur [] rest
      else
        vttLines start dur text rest

/-- Embedding of parseVttTranscript (src/lib/transcript.ts lines 190-259). -/
def parseVttTranscript (text : String) : List TranscriptSegment :=
  vttLines (-1) 0 [] (jsSplitOn '\n' text.toList)

/-! ## Retrieval chain and track selection (src/content/youtube.ts) -/

/-- Descriptor of one caption stream, the CaptionTrack interface of
src/content/youtube.ts. -/
structure CaptionTrack where
  baseUrl : String
  languageCode : String
  kind : Option String
  vssId : Option String
deriving DecidableEq

/-- Embedding of the strategy-4 track selection (src/content/youtube.ts
lines 377-387; the identical code also appears in fetchTranscriptViaInnertube
and in extractTranscript): the first track whose language is en and whose
kind is not asr, else the first track whose language is en, else the first
track. -/
def selectCaptionTrack (tracks : List CaptionTrack) : Option CaptionTrack :=
  match tracks.find? (fun t => t.languageCode == "en" && t.kind != some "asr") with
  | some t => some t
  | none =>
    match tracks.find? (fun t => t.languageCode == "en") with
    | some t => some t
    | none => tracks.head?

/-- Modelled from the spec: the shared track-selection policy the spec
ascribes to strategies 3 and 4 — prefer a manually authored track in the
default language, else an auto-generated track in the default language,
else the first available track regardless of language. -/
def specTrackPolicy (tracks : List CaptionTrack) : Option CaptionTrack :=
  match tracks.find? (fun t => t.languageCode == "en" && t.kind != some "asr") with
  | some t => some t
  | none =>
    match tracks.find? (fun t => t.languageCode == "en" && t.kind == some "asr") with
    | some t => some t
    | none => tracks.head?

/-- Language codes scraped from the timedtext listing by
fetchTranscriptViaYtApi (src/content/youtube.ts lines 238-239): every
capture of the global lang_code-attribute regex, in order.  Scanning works
as for the cue regexes: at each occurrence of the attribute-opening literal
the capture runs to the next quote and must be nonempty. -/
def ytApiLanguagesGo : ℕ → List Char → List String
  | 0, _ => []
  | fuel + 1, cs =>
    match findSplit "lang_code=\"".toList cs with
    | none => []
    | some (_, rest) =>
      match takeUntil '"' rest with
      | none => []
      | some (g, rest2) =>
        if g = [] then ytApiLanguagesGo fuel rest
        else String.mk g :: ytApiLanguagesGo fuel rest2

/-- Language codes of a timedtext listing document. -/
def ytApiLanguages (listText : String) : List String :=
  ytApiLanguagesGo (listText.toList.length + 1) listText.toList

/-- Whether the listing mentions an auto-generated kind anywhere, the
includes test of src/content/youtube.ts line 242. -/
def ytApiIsAsr (listText : String) : Bool :=
  (findSplit "kind=\"asr\"".toList listText.toList).isSome

/-- Language chosen by fetchTranscriptViaYtApi (src/content/youtube.ts line
245): en when listed, else the first listed language, else en (the or-else
also catches a falsy empty first capture, which the regex rules out). -/
def ytApiSelectedLang (listText : String) : String :=
  let languages := ytApiLanguages listText
  if "en" ∈ languages then "en"
  else
    match languages with
    | [] => "en"
    | l :: _ => if l = "" then "en" else l

/-- Effective caption request of strategy 3: the chosen language together
with the auto-generated flag the source splices, as the kind parameter,
into the first three of its four URL variants (the fourth variant is built
with asr_langs and caps and never carries the kind parameter). -/
def ytApiRequest (listText : String) : String × Bool :=
  (ytApiSelectedLang listText, ytApiIsAsr listText)

/-- Embedding of the four URL variants fetchTranscriptViaYtApi tries
(src/content/youtube.ts lines 248-253), built from the video id, the chosen
language and the auto-generated flag: the kind parameter appears in the
first three variants exactly when the flag is set, while the fourth variant
uses asr_langs and caps and ignores the flag. -/
def ytApiUrlVariants (videoId lang : String) (isAsr : Bool) : List String :=
  [ "https://www.youtube.com/api/timedtext?v=" ++ videoId ++ "&lang=" ++ lang ++
      (if isAsr then "&kind=asr" else ""),
    "https://www.youtube.com/api/timedtext?v=" ++ videoId ++ "&lang=" ++ lang ++
      (if isAsr then "&kind=asr" else "") ++ "&fmt=srv3",
    "https://www.youtube.com/api/timedtext?v=" ++ videoId ++ "&lang=" ++ lang ++
      (if isAsr then "&kind=asr" else "") ++ "&fmt=json3",
    "https://www.youtube.com/api/timedtext?v=" ++ videoId ++ "&asr_langs=" ++ lang ++
      "&caps=asr" ]

/-- Substring test on strings, via the leftmost-occurrence scanner. -/
def hasSub (pat s : String) : Bool := (findSplit pat.toList s.toList).isSome

/-- Result type of one acquisition call, the RetrievalOutcome of the spec:
either a segment sequence or the terminal no-transcript outcome that
handleGetTranscript raises as its final error (distinct from any transport
error, all of which the strategies swallow internally). -/
inductive RetrievalOutcome where
  | success (segments : List TranscriptSegment)
  | noTranscript
deriving DecidableEq

/-- Trace of one run of the retrieval chain: its outcome and which of the
four strategies were invoked. -/
structure ChainTrace where
  outcome : RetrievalOutcome
  invoked1 : Bool
  invoked2 : Bool
  invoked3 : Bool
  invoked4 : Bool
deriving DecidableEq

/-- Embedding of the strategy chain of handleGetTranscript
(src/content/youtube.ts lines 354-402), with each strategy abstracted by
the segment list it would produce (every strategy catches its own transport
failures and reports them as the empty list, so this is the full interface
between the chain and its strategies).  Strategy 1 is the Innertube call,
strategy 2 the DOM scrape, strategy 3 the timedtext listing call, strategy
4 the player-response track-locator fetch; the chain runs a later strategy
exactly when every earlier result was empty, and ends in the terminal
no-transcript outcome when all four results are empty. -/
def retrievalChain (s1 s2 s3 s4 : List TranscriptSegment) : ChainTrace :=
  let r1 := s1
  let inv2 := r1.isEmpty
  let r2 := if r1.isEmpty then s2 else r1
  let inv3 := r2.isEmpty
  let r3 := if r2.isEmpty then s3 else r2
  let inv4 := r3.isEmpty
  let r4 := if r3.isEmpty then s4 else r3
  if r4.isEmpty then ⟨.noTranscript, true, inv2, inv3, inv4⟩
  else ⟨.success r4, true, inv2, inv3, inv4⟩

/-! ## Consolidator (handleGetTranscript, src/content/youtube.ts 404-422) -/

/-- The 30-second consolidation window of the source. -/
def CHUNK_DURATION : ℚ := 30

/-- Loop of the consolidator with an open chunk: a segment whose start lies
within the window of the open chunk's start is merged (text space-joined,
duration re-pointed at the segment's end), otherwise the chunk is closed
and a new one opened from the segment; the open chunk is flushed at the
end. -/
def consolidateGo (current : TranscriptSegment) : List TranscriptSegment → List TranscriptSegment
  | [] => [current]
  | seg :: rest =>
    if seg.start - current.start < CHUNK_DURATION then
      consolidateGo
        { current with
          text := current.text ++ " " ++ seg.text,
          duration := seg.start + seg.duration - current.start } rest
    else
      current :: consolidateGo seg rest

/-- Embedding of the consolidation loop of handleGetTranscript: no chunk is
open initially, and an empty input yields no chunks. -/
def consolidate : List TranscriptSegment → List TranscriptSegment
  | [] => []
  | seg :: rest => consolidateGo seg rest

/-- Modelled from the spec's consolidator rule (spec section 4.5), written
as the fold the spec describes: carry an optional open chunk, open one from
the segment when none is open, merge when the segment's start minus the
chunk's start is below the window, otherwise close the chunk and open a new
one, and flush the open chunk at the end of input. -/
def specConsolidate (segments : List TranscriptSegment) : List TranscriptSegment :=
  let step := fun (acc : List TranscriptSegment × Option TranscriptSegment) seg =>
    match acc.2 with
    | none => (acc.1, some seg)
    | some c =>
      if seg.start - c.start < 30 then
        (acc.1, some { c with
          text := c.text ++ " " ++ seg.text,
          duration := seg.start + seg.duration - c.start })
      else (acc.1 ++ [c], some seg)
  match segments.foldl step ([], none) with
  | (out, none) => out
  | (out, some c) => out ++ [c]

/-! ## Lemmas about the consolidator -/

/-- Non-overlap relation between consecutive segments or chunks: the first
ends no later than the second starts. -/
def NonOverlap (a b : TranscriptSegment) : Prop := a.start + a.duration ≤ b.start

/-- Start order relation between consecutive segments. -/
def StartLe (a b : TranscriptSegment) : Prop := a.start ≤ b.start

instance : DecidablePred (fun p : TranscriptSegment × TranscriptSegment => NonOverlap p.1 p.2) :=
  fun _ => by unfold NonOverlap; infer_instance

lemma consolidateGo_cons (l : List TranscriptSegment) :
    ∀ c, ∃ t d tl, consolidateGo c l = TranscriptSegment.mk t c.start d :: tl := by
  induction l with
  | nil => intro c; exact ⟨c.text, c.duration, [], rfl⟩
  | cons seg rest ih =>
    intro c
    by_cases h : seg.start - c.start < CHUNK_DURATION
    · obtain ⟨t, d, tl, heq⟩ := ih { c with
        text := c.text ++ " " ++ seg.text,
        duration := seg.start + seg.duration - c.start }
      exact ⟨t, d, tl, by rw [consolidateGo, if_pos h]; exact heq⟩
    · exact ⟨c.text, c.duration, consolidateGo seg rest, by rw [consolidateGo, if_neg h]⟩

lemma consolidateGo_chain (l : List TranscriptSegment) :
    ∀ c, List.Chain' NonOverlap (c :: l) →
      List.Chain' NonOverlap (consolidateGo c l) := by
  induction l with
  | nil => intro c _; simp [consolidateGo]
  | cons seg rest ih =>
    intro c hc
    rw [List.chain'_cons'] at hc
    obtain ⟨hhead, htail⟩ := hc
    by_cases h : seg.start - c.start < CHUNK_DURATION
    · rw [consolidateGo, if_pos h]
      apply ih
      rw [List.chain'_cons'] at htail ⊢
      refine ⟨?_, htail.2⟩
      intro b hb
      have := htail.1 b hb
      unfold NonOverlap at this ⊢
      simp only
      linarith
    · rw [consolidateGo, if_neg h]
      obtain ⟨t, d, tl, heq⟩ := consolidateGo_cons rest seg
      rw [heq, List.chain'_cons]
      constructor
      · exact hhead seg rfl
      · rw [← heq]
        exact ih seg htail

lemma specConsolidate_go (l : List TranscriptSegment) :
    ∀ c out,
      (match l.foldl (fun acc seg =>
          match acc.2 with
          | none => (acc.1, some seg)
          | some c =>
            if seg.start - c.start < 30 then
              (acc.1, some { c with
                text := c.text ++ " " ++ seg.text,
                duration := seg.start + seg.duration - c.start })
            else (acc.1 ++ [c], some seg)) (out, some c) with
        | (o, none) => o
        | (o, some cfin) => o ++ [cfin]) = out ++ consolidateGo c l := by
  induction l with
  | nil => intro c out; simp [consolidateGo]
  | cons seg rest ih =>
    intro c out
    by_cases h : seg.start - c.start < 30
    · rw [List.foldl_cons]
      simp only [h, if_pos]
      rw [ih]
      have : seg.start - c.start < CHUNK_DURATION := h
      rw [consolidateGo, if_pos this]
    · rw [List.foldl_cons]
      simp only [h, if_neg, not_false_iff]
      rw [ih]
      have : ¬ seg.start - c.start < CHUNK_DURATION := h
      rw [consolidateGo, if_neg this]
      simp

lemma consolidate_eq_specConsolidate (segments : List TranscriptSegment) :
    consolidate segments = specConsolidate segments := by
  cases segments with
  | nil => rfl
  | cons seg rest =>
    have h := specConsolidate_go rest seg []
    simp only [List.nil_append] at h
    simp only [consolidate, specConsolidate, List.foldl_cons]
    exact h.symm

/-! ## Claim C1 -/

/-- C1: the retrieval chain of handleGetTranscript runs its four strategies
strictly in order — strategy 1 always, and each later strategy exactly when
every earlier strategy returned an empty segment sequence (so a non-empty
strategy-1 result keeps strategies 2–4 from being invoked and is returned
as the success outcome) — and when all four results are empty the call ends
in the terminal no-transcript outcome rather than a thrown transport
error. -/
theorem retrievalChain_order_and_exhaustion (s1 s2 s3 s4 : List TranscriptSegment) :
    (retrievalChain s1 s2 s3 s4).invoked1 = true ∧
    ((retrievalChain s1 s2 s3 s4).invoked2 = true ↔ s1 = []) ∧
    ((retrievalChain s1 s2 s3 s4).invoked3 = true ↔ s1 = [] ∧ s2 = []) ∧
    ((retrievalChain s1 s2 s3 s4).invoked4 = true ↔ s1 = [] ∧ s2 = [] ∧ s3 = []) ∧
    (s1 ≠ [] → retrievalChain s1 s2 s3 s4 =
      ⟨.success s1, true, false, false, false⟩) ∧
    (s1 = [] → s2 = [] → s3 = [] → s4 = [] →
      (retrievalChain s1 s2 s3 s4).outcome = .noTranscript) := by
  cases s1 <;> cases s2 <;> cases s3 <;> cases s4 <;>
    simp [retrievalChain]

/-- Witness for C1: with a non-empty strategy-1 result the chain succeeds
with exactly that result and no later strategy is invoked, and with four
empty results it ends in the terminal no-transcript outcome. -/
theorem retrievalChain_order_witness :
    retrievalChain [⟨"a", 0, 1⟩] [⟨"b", 2, 1⟩] [] [] =
      ⟨.success [⟨"a", 0, 1⟩], true, false, false, false⟩ ∧
    (retrievalChain [] [] [] []).outcome = .noTranscript := by
  constructor
  · exact (retrievalChain_order_and_exhaustion [⟨"a", 0, 1⟩] [⟨"b", 2, 1⟩] [] []).2.2.2.2.1
      (by simp)
  · exact (retrievalChain_order_and_exhaustion [] [] [] []).2.2.2.2.2 rfl rfl rfl rfl

/-! ## Claim C2 -/

/-- C2: the consolidator of handleGetTranscript implements exactly the
spec's rule — open a chunk from the first segment; merge a segment when its
start is within the 30-second window of the open chunk's start
(space-joining text and re-pointing the duration at the segment's end),
otherwise close the chunk and open a new one; flush the open chunk at end
of input — and on segments at starts 0, 5, 35, 40 it yields exactly two
chunks, the first covering starts 0 and 5 and the second covering starts
35 and 40. -/
theorem consolidate_follows_spec_rule :
    (∀ segments : List TranscriptSegment, consolidate segments = specConsolidate segments) ∧
    consolidate [⟨"s0", 0, 2⟩, ⟨"s1", 5, 2⟩, ⟨"s2", 35, 2⟩, ⟨"s3", 40, 2⟩] =
      [⟨"s0 s1", 0, 7⟩, ⟨"s2 s3", 35, 7⟩] := by
  refine ⟨consolidate_eq_specConsolidate, ?_⟩
  norm_num [consolidate, consolidateGo, CHUNK_DURATION]
  decide

/-! ## Claim C8 -/

/-- C8 is stated over inputs with non-decreasing starts only; that is not
enough, because a closed chunk keeps the full extent of its last segment.
Here the first segment lasts 100 seconds, so the first chunk ends at 100
while the second chunk starts at 35: the input starts are non-decreasing,
yet the consolidated chunks overlap. -/
theorem consolidate_overlap_counterexample :
    List.Chain' StartLe [⟨"a", 0, 100⟩, ⟨"b", 35, 1⟩] ∧
    consolidate [⟨"a", 0, 100⟩, ⟨"b", 35, 1⟩] = [⟨"a", 0, 100⟩, ⟨"b", 35, 1⟩] ∧
    ¬ List.Chain' NonOverlap (consolidate [⟨"a", 0, 100⟩, ⟨"b", 35, 1⟩]) := by
  have h : consolidate [⟨"a", 0, 100⟩, ⟨"b", 35, 1⟩] = [⟨"a", 0, 100⟩, ⟨"b", 35, 1⟩] := by
    norm_num [consolidate, consolidateGo, CHUNK_DURATION]
  refine ⟨?_, h, ?_⟩
  · norm_num [List.chain'_cons, StartLe]
  · rw [h]
    norm_num [List.chain'_cons, NonOverlap]

/-- C8 (amended): when consecutive input segments do not overlap — each
segment's start + duration is at most the next segment's start, which also
makes the starts non-decreasing — the consolidated chunks have monotone
non-overlapping boundaries: each chunk's start + duration is at most the
next chunk's start.  Non-decreasing starts alone do not suffice (see the
counterexample). -/
theorem consolidate_preserves_nonoverlap (segments : List TranscriptSegment)
    (h : List.Chain' NonOverlap segments) :
    List.Chain' NonOverlap (consolidate segments) := by
  cases segments with
  | nil => simp [consolidate]
  | cons seg rest => exact consolidateGo_chain rest seg h

/-- Witness for C8 (amended): a concrete non-overlapping input and its
non-overlapping consolidated chunks. -/
theorem consolidate_preserves_nonoverlap_witness :
    List.Chain' NonOverlap (consolidate [⟨"a", 0, 1⟩, ⟨"b", 40, 1⟩]) := by
  apply consolidate_preserves_nonoverlap
  norm_num [List.chain'_cons, NonOverlap]

/-! ## Lemmas about track selection and the listing scan -/

lemma find_en_eq_of_no_manual (ts : List CaptionTrack)
    (h : ts.find? (fun t => t.languageCode == "en" && t.kind != some "asr") = none) :
    ts.find? (fun t => t.languageCode == "en") =
      ts.find? (fun t => t.languageCode == "en" && t.kind == some "asr") := by
  induction ts with
  | nil => rfl
  | cons u us ih =>
    rw [List.find?_cons] at h ⊢
    rw [List.find?_cons]
    by_cases hen : (u.languageCode == "en") = true
    · have hasr : (u.kind == some "asr") = true := by
        by_cases hk : (u.kind != some "asr") = true
        · rw [hen, hk] at h; simp at h
        · simpa using hk
      simp only [hen, hasr, Bool.and_self, cond_true]
    · have hen' : (u.languageCode == "en") = false := by simpa using hen
      simp only [hen', Bool.false_and, cond_false] at h ⊢
      exact ih h

lemma selectCaptionTrack_eq_specTrackPolicy (tracks : List CaptionTrack) :
    selectCaptionTrack tracks = specTrackPolicy tracks := by
  unfold selectCaptionTrack specTrackPolicy
  by_cases h : tracks.find? (fun t => t.languageCode == "en" && t.kind != some "asr") = none
  · rw [h, find_en_eq_of_no_manual tracks h]
  · obtain ⟨u, hu⟩ := Option.ne_none_iff_exists'.mp h
    rw [hu]

lemma findSplit_isSome_iff (pat : List Char) (l : List Char) :
    (findSplit pat l).isSome = true ↔ ∃ pre post, l = pre ++ pat ++ post := by
  induction l with
  | nil =>
    constructor
    · intro h
      unfold findSplit at h
      by_cases hp : pat = []
      · exact ⟨[], [], by simp [hp]⟩
      · rw [if_neg hp] at h; simp at h
    · rintro ⟨pre, post, hl⟩
      have hpre : pre = [] := by
        cases pre with
        | nil => rfl
        | cons a b => simp at hl
      have hpat : pat = [] := by
        rw [hpre] at hl
        cases pat with
        | nil => rfl
        | cons a b => simp at hl
      simp [findSplit, hpat]
  | cons c cs ih =>
    constructor
    · intro h
      unfold findSplit at h
      by_cases hp : pat.isPrefixOf (c :: cs) = true
      · obtain ⟨t, ht⟩ := List.isPrefixOf_iff_prefix.mp hp
        exact ⟨[], t, by simp [← ht]⟩
      · rw [if_neg hp] at h
        cases hq : findSplit pat cs with
        | none => rw [hq] at h; simp at h
        | some pr =>
          have : (findSplit pat cs).isSome = true := by rw [hq]; rfl
          obtain ⟨pre, post, hl⟩ := ih.mp this
          exact ⟨c :: pre, post, by simp [hl]⟩
    · rintro ⟨pre, post, hl⟩
      unfold findSplit
      by_cases hp : pat.isPrefixOf (c :: cs) = true
      · rw [if_pos hp]; rfl
      · rw [if_neg hp]
        cases pre with
        | nil =>
          exfalso
          apply hp
          exact List.isPrefixOf_iff_prefix.mpr ⟨post, by simpa using hl.symm⟩
        | cons a pre' =>
          have ha : a = c := by simpa using congrArg (fun x => x.head?) hl.symm
          have hcs : cs = pre' ++ pat ++ post := by
            have := congrArg (fun x => x.tail) hl
            simpa using this
          have : (findSplit pat cs).isSome = true := ih.mpr ⟨pre', post, hcs⟩
          cases hq : findSplit pat cs with
          | none => rw [hq] at this; simp at this
          | some pr => obtain ⟨p1, p2⟩ := pr; rfl

lemma ytApiLanguagesGo_ne_empty :
    ∀ fuel (cs : List Char), ("" : String) ∉ ytApiLanguagesGo fuel cs := by
  intro fuel
  induction fuel with
  | zero => intro cs; simp [ytApiLanguagesGo]
  | succ fuel ih =>
    intro cs
    rw [ytApiLanguagesGo]
    cases hfs : findSplit "lang_code=\"".toList cs with
    | none => simp
    | some pr =>
      obtain ⟨pre, rest⟩ := pr
      show ("" : String) ∉
        (match takeUntil '"' rest with
         | none => []
         | some (g, rest2) =>
           if g = [] then ytApiLanguagesGo fuel rest
           else String.mk g :: ytApiLanguagesGo fuel rest2)
      cases htu : takeUntil '"' rest with
      | none => simp
      | some gr =>
        obtain ⟨g, rest2⟩ := gr
        show ("" : String) ∉
          (if g = [] then ytApiLanguagesGo fuel rest
           else String.mk g :: ytApiLanguagesGo fuel rest2)
        by_cases hg : g = []
        · rw [if_pos hg]
          exact ih rest
        · rw [if_neg hg]
          intro hmem
          rcases List.mem_cons.mp hmem with he | hm
          · exact hg (congrArg String.toList he).symm
          · exact ih rest2 hm

lemma ytApiLanguages_ne_empty (listText : String) :
    ("" : String) ∉ ytApiLanguages listText :=
  ytApiLanguagesGo_ne_empty _ _

lemma ytApiSelectedLang_eq (listText : String) :
    ytApiSelectedLang listText =
      if "en" ∈ ytApiLanguages listText then "en"
      else (ytApiLanguages listText).headD "en" := by
  unfold ytApiSelectedLang
  by_cases hen : "en" ∈ ytApiLanguages listText
  · simp [hen]
  · rw [if_neg hen, if_neg hen]
    cases hl : ytApiLanguages listText with
    | nil => rfl
    | cons l ls =>
      have hne : ¬ l = "" := by
        intro he
        apply ytApiLanguages_ne_empty listText
        rw [hl, ← he]
        exact List.mem_cons_self l ls
      show (if l = "" then "en" else l) = l
      exact if_neg hne

/-! ## Claim C7 -/

/-- C7 as stated is false: the two strategies do not share the selection
policy.  On a timedtext listing holding an auto-generated French track and
a manually authored English track, strategy 3 requests language en with the
auto-generated kind parameter (it chooses only a language, and appends
kind=asr because the marker occurs somewhere in the listing), while the
claimed policy — implemented by strategy 4 — selects the manually authored
English track, whose kind is not asr. -/
theorem trackSelection_policies_differ :
    ytApiRequest "<transcript_list><track lang_code=\"fr\" kind=\"asr\"/><track lang_code=\"en\"/></transcript_list>" =
      ("en", true) ∧
    selectCaptionTrack
        [⟨"u1", "fr", some "asr", none⟩, ⟨"u2", "en", none, none⟩] =
      some ⟨"u2", "en", none, none⟩ := by
  constructor
  · decide
  · decide

/-- C7 (amended): strategy 4 (and the identical code in the Innertube
strategy and in extractTranscript) selects tracks by the claimed policy —
manually authored default-language track, else auto-generated
default-language track, else the first track.  Strategy 3 does not select
a track at all: it picks only a language — en when listed, else the first
listed language, else en — and, exactly when the kind=asr marker occurs
anywhere in the listing text, splices the kind parameter into the first
three of its four URL variants, while the fourth variant is built with
asr_langs and caps=asr and never carries the kind parameter; there is no
per-track preference for manual over auto-generated.  The last three
conjuncts exhibit the variant shapes: the fourth variant is the same
string whatever the flag, the first three variants carry the kind
parameter when the flag is set, and no variant carries it when the flag
is clear. -/
theorem trackSelection_amended :
    (∀ tracks : List CaptionTrack, selectCaptionTrack tracks = specTrackPolicy tracks) ∧
    (∀ listText : String, ytApiIsAsr listText = true ↔
      ∃ pre post, listText.toList = pre ++ "kind=\"asr\"".toList ++ post) ∧
    (∀ listText : String, ytApiSelectedLang listText =
      if "en" ∈ ytApiLanguages listText then "en"
      else (ytApiLanguages listText).headD "en") ∧
    (∀ (videoId lang : String) (isAsr : Bool),
      (ytApiUrlVariants videoId lang isAsr).getD 3 "" =
        "https://www.youtube.com/api/timedtext?v=" ++ videoId ++ "&asr_langs=" ++ lang ++
          "&caps=asr") ∧
    (∀ u ∈ (ytApiUrlVariants "vid" "en" true).take 3, hasSub "&kind=asr" u = true) ∧
    hasSub "&kind=asr" ((ytApiUrlVariants "vid" "en" true).getD 3 "") = false ∧
    (∀ u ∈ ytApiUrlVariants "vid" "en" false, hasSub "&kind=asr" u = false) := by
  refine ⟨selectCaptionTrack_eq_specTrackPolicy, ?_, ytApiSelectedLang_eq, ?_, ?_, ?_, ?_⟩
  · intro listText
    exact findSplit_isSome_iff _ _
  · intro videoId lang isAsr
    rfl
  · decide
  · decide
  · decide

/-- Witness for C7 (amended): the first URL variant evaluated through the
general membership conjuncts — it carries the kind parameter when the flag
is set and not when it is clear. -/
theorem trackSelection_amended_witness :
    hasSub "&kind=asr" ((ytApiUrlVariants "vid" "en" true).getD 0 "") = true ∧
    hasSub "&kind=asr" ((ytApiUrlVariants "vid" "en" false).getD 0 "") = false := by
  constructor
  · exact trackSelection_amended.2.2.2.2.1 _ (by decide)
  · exact trackSelection_amended.2.2.2.2.2.2 _ (by decide)

/-! ## Claim C10 -/

/-- C10: decodeHtmlEntities applies its replacement rules sequentially with
the amp rule first, so a double-encoded reference is decoded twice in one
call: the first replacement turns amp-encoded text into a new entity that a
later rule then decodes.  A single left-to-right pass over the original
input would leave the lt-entity text and produce the amp-amp text instead;
the results differ from both. -/
theorem decodeHtmlEntities_sequential :
    decodeHtmlEntities "&amp;lt;" = "<" ∧
    decodeHtmlEntities "&amp;amp;" = "&amp;" ∧
    decodeHtmlEntities "&amp;lt;" ≠ "&lt;" ∧
    decodeHtmlEntities "&amp;amp;" ≠ "&amp;amp;" := by
  decide

/-! ## Claim C4 -/

/-- C4 as stated is false: the event-stream JSON parser emits cue text
verbatim.  On an event whose single seg reads as Tom-amp-entity-Jerry the
emitted segment text still holds the entity, not the decoded ampersand. -/
theorem parserEntityDecoding_counterexample :
    parseJson3Transcript "\x7b\"events\":[\x7b\"tStartMs\":0,\"dDurationMs\":1000,\"segs\":[\x7b\"utf8\":\"Tom &amp; Jerry\"\x7d]\x7d]\x7d" =
      [⟨"Tom &amp; Jerry", 0, 1⟩] ∧
    ("Tom &amp; Jerry" : String) ≠ "Tom & Jerry" := by
  constructor
  · simp +decide [parseJson3Transcript, jsonParse, jsonValue, jsonElems, jsonMembers,
      jsonStringBody, jsonNumber, jsonUnescape, takeDigitsRun, skipJsonWs, isJsonWs,
      isDigitChar, json3Events, json3SegText, json3NumField, jsGetField, jsTruthy, jsTrim,
      isJsWs, digitsVal]
  · decide

/-- C4 (amended): the tag-cue XML and structured-cue SRV3 parsers decode
character references and collapse embedded line breaks to single spaces;
the cue-text-block VTT parser joins the lines of a cue with single spaces
but leaves character references undecoded; the event-stream JSON parser
emits cue text verbatim, neither decoding references nor collapsing
embedded line breaks. -/
theorem parserEntityDecoding_amended :
    parseXmlTranscript "<text start=\"0\" dur=\"1\">Tom &amp; Jerry</text>" =
      [⟨"Tom & Jerry", 0, 1⟩] ∧
    parseXmlTranscript "<text start=\"0\" dur=\"1\">Line one\nLine two</text>" =
      [⟨"Line one Line two", 0, 1⟩] ∧
    parseSrv3Transcript "<p t=\"0\" d=\"1000\">Tom &amp; Jerry</p>" =
      [⟨"Tom & Jerry", 0, 1⟩] ∧
    parseSrv3Transcript "<p t=\"0\" d=\"1000\">Line one\nLine two</p>" =
      [⟨"Line one Line two", 0, 1⟩] ∧
    parseVttTranscript "WEBVTT\n\n00:01.000 --> 00:02.000\nLine one\nLine two" =
      [⟨"Line one Line two", 1, 1⟩] ∧
    parseVttTranscript "WEBVTT\n\n00:01.000 --> 00:02.000\nTom &amp; Jerry" =
      [⟨"Tom &amp; Jerry", 1, 1⟩] ∧
    parseJson3Transcript "\x7b\"events\":[\x7b\"tStartMs\":0,\"dDurationMs\":1000,\"segs\":[\x7b\"utf8\":\"Line one\\nLine two\"\x7d]\x7d]\x7d" =
      [⟨"Line one\nLine two", 0, 1⟩] := by
  refine ⟨?_, ?_, ?_, ?_, ?_, ?_, ?_⟩
  · simp +decide [parseXmlTranscript, parseXmlGo, xmlCueTail, findSplit, takeUntil,
      decodeHtmlEntitiesList, replaceAll, replaceAllGo, jsTrim, jsParseFloat, takeDigitsRun,
      digitsVal, isDigitChar, isJsWs]
  · simp +decide [parseXmlTranscript, parseXmlGo, xmlCueTail, findSplit, takeUntil,
      decodeHtmlEntitiesList, replaceAll, replaceAllGo, jsTrim, jsParseFloat, takeDigitsRun,
      digitsVal, isDigitChar, isJsWs]
  · simp +decide [parseSrv3Transcript, parseSrv3Go, srv3CueTail, findSplit, takeUntil,
      removeSTags, removeSTagsGo, decodeHtmlEntitiesList, replaceAll, replaceAllGo, jsTrim,
      takeDigitsRun, digitsVal, isDigitChar, isJsWs]
  · simp +decide [parseSrv3Transcript, parseSrv3Go, srv3CueTail, findSplit, takeUntil,
      removeSTags, removeSTagsGo, decodeHtmlEntitiesList, replaceAll, replaceAllGo, jsTrim,
      takeDigitsRun, digitsVal, isDigitChar, isJsWs]
  · simp +decide [parseVttTranscript, vttLines, vttFindTiming, vttTimingAt, vttTimestampAt,
      twoDigits, threeDigits, stripAngleTags, stripAngleTagsGo, takeUntil, jsTrim, isJsWs,
      jsSplitOn, isDigitChar]
    norm_num
  · simp +decide [parseVttTranscript, vttLines, vttFindTiming, vttTimingAt, vttTimestampAt,
      twoDigits, threeDigits, stripAngleTags, stripAngleTagsGo, takeUntil, jsTrim, isJsWs,
      jsSplitOn, isDigitChar]
    norm_num
  · simp +decide [parseJson3Transcript, jsonParse, jsonValue, jsonElems, jsonMembers,
      jsonStringBody, jsonNumber, jsonUnescape, takeDigitsRun, skipJsonWs, isJsonWs,
      isDigitChar, json3Events, json3SegText, json3NumField, jsGetField, jsTruthy, jsTrim,
      isJsWs, digitsVal]

/-! ## Digit lemmas -/

lemma digitChar_toNat {d : ℕ} (h : d < 10) : (digitChar d).toNat = 48 + d := by
  have : ∀ e, e < 10 → (digitChar e).toNat = 48 + e := by decide
  exact this d h

lemma isDigitChar_digitChar {d : ℕ} (h : d < 10) : isDigitChar (digitChar d) = true := by
  have : ∀ e, e < 10 → isDigitChar (digitChar e) = true := by decide
  exact this d h

lemma isJsWs_digitChar {d : ℕ} (h : d < 10) : isJsWs (digitChar d) = false := by
  have : ∀ e, e < 10 → isJsWs (digitChar e) = false := by decide
  exact this d h

/-- Rendering of a value below 100 as exactly two digit characters, the
shape of the hour, minute and second fields of a VTT timing line. -/
def twoDigitChars (n : ℕ) : List Char := [digitChar (n / 10), digitChar (n % 10)]

/-- Rendering of a value below 1000 as exactly three digit characters, the
shape of the millisecond field of a VTT timing line. -/
def threeDigitChars (n : ℕ) : List Char :=
  [digitChar (n / 100), digitChar (n / 10 % 10), digitChar (n % 10)]

lemma twoDigits_spec {n : ℕ} (h : n < 100) (rest : List Char) :
    twoDigits (digitChar (n / 10) :: digitChar (n % 10) :: rest) = some (n, rest) := by
  have h1 : n / 10 < 10 := by omega
  have h2 : n % 10 < 10 := by omega
  simp only [twoDigits, isDigitChar_digitChar h1, isDigitChar_digitChar h2, and_self,
    if_true, digitChar_toNat h1, digitChar_toNat h2]
  congr 1
  congr 1
  omega

lemma threeDigits_spec {n : ℕ} (h : n < 1000) (rest : List Char) :
    threeDigits (digitChar (n / 100) :: digitChar (n / 10 % 10) :: digitChar (n % 10) :: rest) =
      some (n, rest) := by
  have h1 : n / 100 < 10 := by omega
  have h2 : n / 10 % 10 < 10 := by omega
  have h3 : n % 10 < 10 := by omega
  simp only [threeDigits, isDigitChar_digitChar h1, isDigitChar_digitChar h2,
    isDigitChar_digitChar h3, and_self, if_true, digitChar_toNat h1, digitChar_toNat h2,
    digitChar_toNat h3]
  congr 1
  congr 1
  omega

/-! ## VTT timing lemmas -/

lemma vttTimestampAt_long {hh mm ss ms : ℕ} (h1 : hh < 100) (h2 : mm < 100)
    (h3 : ss < 100) (h4 : ms < 1000) (rest : List Char) :
    vttTimestampAt (digitChar (hh / 10) :: digitChar (hh % 10) :: ':' ::
        digitChar (mm / 10) :: digitChar (mm % 10) :: ':' ::
        digitChar (ss / 10) :: digitChar (ss % 10) :: '.' ::
        digitChar (ms / 100) :: digitChar (ms / 10 % 10) :: digitChar (ms % 10) :: rest) =
      some (((hh * 3600 + mm * 60 + ss : ℕ) : ℚ) + (ms : ℚ) / 1000, rest) := by
  unfold vttTimestampAt
  rw [twoDigits_spec h1]
  simp only
  rw [twoDigits_spec h2]
  simp only
  rw [twoDigits_spec h3]
  simp only
  rw [threeDigits_spec h4]

lemma vttTimestampAt_short {mm ss ms : ℕ} (h2 : mm < 100)
    (h3 : ss < 100) (h4 : ms < 1000) (rest : List Char) :
    vttTimestampAt (digitChar (mm / 10) :: digitChar (mm % 10) :: ':' ::
        digitChar (ss / 10) :: digitChar (ss % 10) :: '.' ::
        digitChar (ms / 100) :: digitChar (ms / 10 % 10) :: digitChar (ms % 10) :: rest) =
      some (((mm * 60 + ss : ℕ) : ℚ) + (ms : ℚ) / 1000, rest) := by
  unfold vttTimestampAt
  rw [twoDigits_spec h2]
  simp only
  rw [twoDigits_spec h3]
  simp only
  rw [threeDigits_spec h4]

lemma vttTimingAt_long_short {hh mm ss ms mm2 ss2 ms2 : ℕ}
    (h1 : hh < 100) (h2 : mm < 100) (h3 : ss < 100) (h4 : ms < 1000)
    (h5 : mm2 < 100) (h6 : ss2 < 100) (h7 : ms2 < 1000) :
    vttTimingAt (digitChar (hh / 10) :: digitChar (hh % 10) :: ':' ::
        digitChar (mm / 10) :: digitChar (mm % 10) :: ':' ::
        digitChar (ss / 10) :: digitChar (ss % 10) :: '.' ::
        digitChar (ms / 100) :: digitChar (ms / 10 % 10) :: digitChar (ms % 10) ::
        ' ' :: '-' :: '-' :: '>' :: ' ' ::
        digitChar (mm2 / 10) :: digitChar (mm2 % 10) :: ':' ::
        digitChar (ss2 / 10) :: digitChar (ss2 % 10) :: '.' ::
        digitChar (ms2 / 100) :: digitChar (ms2 / 10 % 10) :: [digitChar (ms2 % 10)]) =
      some (((hh * 3600 + mm * 60 + ss : ℕ) : ℚ) + (ms : ℚ) / 1000,
        ((mm2 * 60 + ss2 : ℕ) : ℚ) + (ms2 : ℚ) / 1000) := by
  unfold vttTimingAt
  rw [vttTimestampAt_long h1 h2 h3 h4]
  simp only []
  have hw : isJsWs ' ' = true := by decide
  have hw2 : isJsWs '-' = false := by decide
  have hd : isJsWs (digitChar (mm2 / 10)) = false := isJsWs_digitChar (by omega)
  simp only [List.dropWhile, hw, hw2, if_true, if_false, hd]
  have hpre : ("-->".toList).isPrefixOf
      ('-' :: '-' :: '>' :: ' ' ::
        digitChar (mm2 / 10) :: digitChar (mm2 % 10) :: ':' ::
        digitChar (ss2 / 10) :: digitChar (ss2 % 10) :: '.' ::
        digitChar (ms2 / 100) :: digitChar (ms2 / 10 % 10) :: [digitChar (ms2 % 10)]) = true := by
    simp [List.isPrefixOf]
  rw [if_pos hpre]
  rw [vttTimestampAt_short h5 h6 h7]

lemma vttTimingAt_short_long {mm ss ms hh2 mm2 ss2 ms2 : ℕ}
    (h2 : mm < 100) (h3 : ss < 100) (h4 : ms < 1000)
    (h5 : hh2 < 100) (h6 : mm2 < 100) (h7 : ss2 < 100) (h8 : ms2 < 1000) :
    vttTimingAt (digitChar (mm / 10) :: digitChar (mm % 10) :: ':' ::
        digitChar (ss / 10) :: digitChar (ss % 10) :: '.' ::
        digitChar (ms / 100) :: digitChar (ms / 10 % 10) :: digitChar (ms % 10) ::
        ' ' :: '-' :: '-' :: '>' :: ' ' ::
        digitChar (hh2 / 10) :: digitChar (hh2 % 10) :: ':' ::
        digitChar (mm2 / 10) :: digitChar (mm2 % 10) :: ':' ::
        digitChar (ss2 / 10) :: digitChar (ss2 % 10) :: '.' ::
        digitChar (ms2 / 100) :: digitChar (ms2 / 10 % 10) :: [digitChar (ms2 % 10)]) =
      some (((mm * 60 + ss : ℕ) : ℚ) + (ms : ℚ) / 1000,
        ((hh2 * 3600 + mm2 * 60 + ss2 : ℕ) : ℚ) + (ms2 : ℚ) / 1000) := by
  unfold vttTimingAt
  rw [vttTimestampAt_short h2 h3 h4]
  simp only []
  have hw : isJsWs ' ' = true := by decide
  have hw2 : isJsWs '-' = false := by decide
  have hd : isJsWs (digitChar (hh2 / 10)) = false := isJsWs_digitChar (by omega)
  simp only [List.dropWhile, hw, hw2, if_true, if_false, hd]
  have hpre : ("-->".toList).isPrefixOf
      ('-' :: '-' :: '>' :: ' ' ::
        digitChar (hh2 / 10) :: digitChar (hh2 % 10) :: ':' ::
        digitChar (mm2 / 10) :: digitChar (mm2 % 10) :: ':' ::
        digitChar (ss2 / 10) :: digitChar (ss2 % 10) :: '.' ::
        digitChar (ms2 / 100) :: digitChar (ms2 / 10 % 10) :: [digitChar (ms2 % 10)]) = true := by
    simp [List.isPrefixOf]
  rw [if_pos hpre]
  rw [vttTimestampAt_long h5 h6 h7 h8]

/-! ## Claim C6 -/

/-- C6: the cue-text-block parser accepts the hours-bearing and the
hours-free timing forms independently on the two sides of the arrow inside
one cue block — the first conjunct takes any hours-bearing left timestamp
with an hours-free right one, the second the reverse — computing the cue's
start from the left timestamp and its duration as end minus start, and a
final cue block with no terminating blank line is still emitted at end of
input: in the concrete transcript the first cue mixes the two forms one
way (start 1, duration 65 − 1), the second cue mixes them the other way
(start 65, duration 3665 − 65) and is emitted although the input ends
without a blank line. -/
theorem vtt_timing_forms_and_flush :
    (∀ hh mm ss ms mm2 ss2 ms2 : ℕ, hh < 100 → mm < 100 → ss < 100 → ms < 1000 →
      mm2 < 100 → ss2 < 100 → ms2 < 1000 →
      vttTimingAt (digitChar (hh / 10) :: digitChar (hh % 10) :: ':' ::
          digitChar (mm / 10) :: digitChar (mm % 10) :: ':' ::
          digitChar (ss / 10) :: digitChar (ss % 10) :: '.' ::
          digitChar (ms / 100) :: digitChar (ms / 10 % 10) :: digitChar (ms % 10) ::
          ' ' :: '-' :: '-' :: '>' :: ' ' ::
          digitChar (mm2 / 10) :: digitChar (mm2 % 10) :: ':' ::
          digitChar (ss2 / 10) :: digitChar (ss2 % 10) :: '.' ::
          digitChar (ms2 / 100) :: digitChar (ms2 / 10 % 10) :: [digitChar (ms2 % 10)]) =
        some (((hh * 3600 + mm * 60 + ss : ℕ) : ℚ) + (ms : ℚ) / 1000,
          ((mm2 * 60 + ss2 : ℕ) : ℚ) + (ms2 : ℚ) / 1000)) ∧
    (∀ mm ss ms hh2 mm2 ss2 ms2 : ℕ, mm < 100 → ss < 100 → ms < 1000 → hh2 < 100 →
      mm2 < 100 → ss2 < 100 → ms2 < 1000 →
      vttTimingAt (digitChar (mm / 10) :: digitChar (mm % 10) :: ':' ::
          digitChar (ss / 10) :: digitChar (ss % 10) :: '.' ::
          digitChar (ms / 100) :: digitChar (ms / 10 % 10) :: digitChar (ms % 10) ::
          ' ' :: '-' :: '-' :: '>' :: ' ' ::
          digitChar (hh2 / 10) :: digitChar (hh2 % 10) :: ':' ::
          digitChar (mm2 / 10) :: digitChar (mm2 % 10) :: ':' ::
          digitChar (ss2 / 10) :: digitChar (ss2 % 10) :: '.' ::
          digitChar (ms2 / 100) :: digitChar (ms2 / 10 % 10) :: [digitChar (ms2 % 10)]) =
        some (((mm * 60 + ss : ℕ) : ℚ) + (ms : ℚ) / 1000,
          ((hh2 * 3600 + mm2 * 60 + ss2 : ℕ) : ℚ) + (ms2 : ℚ) / 1000)) ∧
    parseVttTranscript "WEBVTT\n\n00:00:01.000 --> 01:05.000\nHello\n\n01:05.000 --> 01:01:05.000\nWorld" =
      [⟨"Hello", 1, 64⟩, ⟨"World", 65, 3600⟩] := by
  refine ⟨?_, ?_, ?_⟩
  · intro hh mm ss ms mm2 ss2 ms2 h1 h2 h3 h4 h5 h6 h7
    exact vttTimingAt_long_short h1 h2 h3 h4 h5 h6 h7
  · intro mm ss ms hh2 mm2 ss2 ms2 h2 h3 h4 h5 h6 h7 h8
    exact vttTimingAt_short_long h2 h3 h4 h5 h6 h7 h8
  · simp +decide [parseVttTranscript, vttLines, vttFindTiming, vttTimingAt, vttTimestampAt,
      twoDigits, threeDigits, stripAngleTags, stripAngleTagsGo, takeUntil, jsTrim, isJsWs,
      jsSplitOn, isDigitChar]
    norm_num

/-- Witness for C6: the mixed-form timing line of the first cue, evaluated
through the general statement at its digit values. -/
theorem vtt_timing_forms_witness :
    vttTimingAt ("00:00:01.000 --> 01:05.000".toList) = some (1, 65) := by
  have h := vtt_timing_forms_and_flush.1 0 0 1 0 1 5 0 (by decide) (by decide) (by decide)
    (by decide) (by decide) (by decide) (by decide)
  have e : ("00:00:01.000 --> 01:05.000".toList) =
      digitChar (0 / 10) :: digitChar (0 % 10) :: ':' ::
      digitChar (0 / 10) :: digitChar (0 % 10) :: ':' ::
      digitChar (1 / 10) :: digitChar (1 % 10) :: '.' ::
      digitChar (0 / 100) :: digitChar (0 / 10 % 10) :: digitChar (0 % 10) ::
      ' ' :: '-' :: '-' :: '>' :: ' ' ::
      digitChar (1 / 10) :: digitChar (1 % 10) :: ':' ::
      digitChar (5 / 10) :: digitChar (5 % 10) :: '.' ::
      digitChar (0 / 100) :: digitChar (0 / 10 % 10) :: [digitChar (0 % 10)] := by decide
  rw [e, h]
  norm_num

/-! ## Lemmas for parser behaviour on invalid payloads -/

lemma parseXml_no_open (s : String)
    (h : findSplit ("<text start=\"".toList) s.toList = none) :
    parseXmlTranscript s = [] := by
  unfold parseXmlTranscript
  rw [parseXmlGo, h]

lemma parseSrv3_no_open (s : String)
    (h : findSplit ("<p t=\"".toList) s.toList = none) :
    parseSrv3Transcript s = [] := by
  unfold parseSrv3Transcript
  rw [parseSrv3Go, h]

lemma parseJson3_parse_fail (s : String) (h : jsonParse s = none) :
    parseJson3Transcript s = [] := by
  unfold parseJson3Transcript
  rw [h]

lemma vttLines_no_timing (lines : List (List Char))
    (h : ∀ raw ∈ lines, vttFindTiming (jsTrim raw) = none) :
    ∀ dur : ℚ, vttLines (-1) dur [] lines = [] := by
  induction lines with
  | nil =>
    intro dur
    simp [vttLines]
  | cons raw rest ih =>
    intro dur
    have hr := h raw (by simp)
    rw [vttLines, hr]
    have hneg : ¬ (0 : ℚ) ≤ -1 := by norm_num
    simp only [hneg, and_false, if_false, ne_eq, not_true_eq_false, false_and, if_false]
    exact ih (fun r hrm => h r (by simp [hrm])) dur

/-! ## Claim C5 -/

/-- C5: each format parser is total — every defining equation above is a
total function, so no input raises — and on an empty or structurally
invalid payload it returns the empty segment sequence: the event-stream
parser whenever JSON.parse fails (the catch path), the tag-cue and
structured-cue parsers whenever their cue-opening literal never occurs, and
the cue-text-block parser whenever no line carries a timing pattern; the
empty string and a concrete non-transcript payload are such inputs for all
four. -/
theorem parsers_empty_on_invalid :
    (∀ s : String, jsonParse s = none → parseJson3Transcript s = []) ∧
    (∀ s : String, findSplit ("<text start=\"".toList) s.toList = none →
      parseXmlTranscript s = []) ∧
    (∀ s : String, findSplit ("<p t=\"".toList) s.toList = none →
      parseSrv3Transcript s = []) ∧
    (∀ s : String, (∀ raw ∈ jsSplitOn '\n' s.toList, vttFindTiming (jsTrim raw) = none) →
      parseVttTranscript s = []) ∧
    parseXmlTranscript "" = [] ∧ parseSrv3Transcript "" = [] ∧
    parseJson3Transcript "" = [] ∧ parseVttTranscript "" = [] ∧
    parseXmlTranscript "this is not a transcript" = [] ∧
    parseSrv3Transcript "this is not a transcript" = [] ∧
    parseJson3Transcript "this is not a transcript" = [] ∧
    parseVttTranscript "this is not a transcript" = [] := by
  refine ⟨parseJson3_parse_fail, parseXml_no_open, parseSrv3_no_open,
    ?_, ?_, ?_, ?_, ?_, ?_, ?_, ?_, ?_⟩
  · intro s h
    exact vttLines_no_timing (jsSplitOn '\n' s.toList) h 0
  · decide
  · decide
  · rfl
  · decide
  · decide
  · decide
  · rfl
  · decide

/-- Witness for C5: each universal conjunct applied to a concrete invalid
payload, with its no-match hypothesis discharged by evaluation. -/
theorem parsers_empty_on_invalid_witness :
    parseJson3Transcript "\x7b\"events\": oops" = [] ∧
    parseXmlTranscript "<text started wrong>" = [] ∧
    parseSrv3Transcript "<p kind of wrong>" = [] ∧
    parseVttTranscript "WEBVTT\n\nnot a timing line\njust text" = [] := by
  refine ⟨parsers_empty_on_invalid.1 _ rfl,
    (parsers_empty_on_invalid.2.1) _ (by decide),
    (parsers_empty_on_invalid.2.2.1) _ (by decide),
    (parsers_empty_on_invalid.2.2.2.1) _ (by decide)⟩

/-! ## Decimal representation lemmas -/

lemma digitsVal_append_singleton (l : List Char) (c : Char) :
    digitsVal (l ++ [c]) = 10 * digitsVal l + (c.toNat - 48) := by
  unfold digitsVal
  rw [List.foldl_append]
  rfl

lemma digitsVal_reverse (l : List Char) : digitsVal l.reverse = valLE l := by
  induction l with
  | nil => rfl
  | cons c cs ih =>
    rw [List.reverse_cons, digitsVal_append_singleton, ih, valLE]
    ring

lemma natReprRevGo_spec :
    ∀ fuel n, n < fuel →
      valLE (natReprRevGo fuel n) = n ∧ natReprRevGo fuel n ≠ [] ∧
      ∀ c ∈ natReprRevGo fuel n, isDigitChar c = true := by
  intro fuel
  induction fuel with
  | zero => intro n h; omega
  | succ fuel ih =>
    intro n h
    by_cases hn : n < 10
    · refine ⟨?_, ?_, ?_⟩
      · simp only [natReprRevGo, if_pos hn, valLE, digitChar_toNat hn]
        omega
      · simp [natReprRevGo, if_pos hn]
      · intro c hc
        simp only [natReprRevGo, if_pos hn, List.mem_singleton] at hc
        rw [hc]
        exact isDigitChar_digitChar hn
    · have hrec : n / 10 < fuel := by omega
      obtain ⟨hval, hne, hdig⟩ := ih (n / 10) hrec
      have hm : n % 10 < 10 := by omega
      refine ⟨?_, ?_, ?_⟩
      · simp only [natReprRevGo, if_neg hn, valLE, hval, digitChar_toNat hm]
        omega
      · simp [natReprRevGo, if_neg hn]
      · intro c hc
        simp only [natReprRevGo, if_neg hn, List.mem_cons] at hc
        rcases hc with hc | hc
        · rw [hc]; exact isDigitChar_digitChar hm
        · exact hdig c hc

lemma natRepr_val (n : ℕ) : digitsVal (natRepr n) = n := by
  rw [natRepr, digitsVal_reverse]
  exact (natReprRevGo_spec (n + 1) n (by omega)).1

lemma natRepr_digits (n : ℕ) : ∀ c ∈ natRepr n, isDigitChar c = true := by
  intro c hc
  rw [natRepr, List.mem_reverse] at hc
  exact (natReprRevGo_spec (n + 1) n (by omega)).2.2 c hc

lemma natRepr_ne_nil (n : ℕ) : natRepr n ≠ [] := by
  rw [natRepr, ne_eq, List.reverse_eq_nil_iff]
  exact (natReprRevGo_spec (n + 1) n (by omega)).2.1

lemma colon_not_mem_of_digits {l : List Char} (h : ∀ c ∈ l, isDigitChar c = true) :
    ':' ∉ l := by
  intro hc
  have := h ':' hc
  simp [isDigitChar] at this

lemma jsNumber_of_digits {l : List Char} (h : ∀ c ∈ l, isDigitChar c = true) :
    jsNumber l = some ((digitsVal l : ℕ) : ℚ) := by
  unfold jsNumber
  rw [if_pos (List.all_eq_true.mpr h)]

lemma digitsVal_replicate_zero_append (k : ℕ) (l : List Char) :
    digitsVal (List.replicate k '0' ++ l) = digitsVal l := by
  induction k with
  | zero => rfl
  | succ k ih =>
    rw [List.replicate_succ, List.cons_append]
    show digitsVal (List.replicate k '0' ++ l) = digitsVal l
    exact ih

lemma padStart2_digits {l : List Char} (h : ∀ c ∈ l, isDigitChar c = true) :
    ∀ c ∈ padStart2 l, isDigitChar c = true := by
  intro c hc
  unfold padStart2 at hc
  by_cases hl : 2 ≤ l.length
  · rw [if_pos hl] at hc; exact h c hc
  · rw [if_neg hl, List.mem_append] at hc
    rcases hc with hc | hc
    · rw [List.eq_of_mem_replicate hc]; decide
    · exact h c hc

lemma digitsVal_padStart2 (l : List Char) : digitsVal (padStart2 l) = digitsVal l := by
  unfold padStart2
  by_cases hl : 2 ≤ l.length
  · rw [if_pos hl]
  · rw [if_neg hl, digitsVal_replicate_zero_append]

/-! ## Split and parse lemmas -/

lemma jsSplitOn_no_sep {sep : Char} : ∀ {l : List Char}, sep ∉ l → jsSplitOn sep l = [l] := by
  intro l
  induction l with
  | nil => intro _; rfl
  | cons c cs ih =>
    intro h
    have hc : ¬ c = sep := fun he => h (by simp [he])
    have hcs : sep ∉ cs := fun hm => h (by simp [hm])
    rw [jsSplitOn, if_neg hc, ih hcs]

lemma jsSplitOn_append {sep : Char} :
    ∀ {l1 : List Char}, sep ∉ l1 → ∀ l2, jsSplitOn sep (l1 ++ sep :: l2) = l1 :: jsSplitOn sep l2 := by
  intro l1
  induction l1 with
  | nil =>
    intro _ l2
    simp [jsSplitOn]
  | cons c cs ih =>
    intro h l2
    have hc : ¬ c = sep := fun he => h (by simp [he])
    have hcs : sep ∉ cs := fun hm => h (by simp [hm])
    rw [List.cons_append, jsSplitOn, if_neg hc, ih hcs l2]

lemma string_toList_mk (l : List Char) : (String.mk l).toList = l := rfl

lemma parseTimestamp_three_parts (A B C : List Char)
    (hA : ∀ c ∈ A, isDigitChar c = true) (hB : ∀ c ∈ B, isDigitChar c = true)
    (hC : ∀ c ∈ C, isDigitChar c = true) :
    parseTimestamp (String.mk (A ++ ':' :: (B ++ ':' :: C))) =
      ((digitsVal A : ℕ) : ℚ) * 3600 + ((digitsVal B : ℕ) : ℚ) * 60 + ((digitsVal C : ℕ) : ℚ) := by
  unfold parseTimestamp
  rw [string_toList_mk, jsSplitOn_append (colon_not_mem_of_digits hA),
    jsSplitOn_append (colon_not_mem_of_digits hB),
    jsSplitOn_no_sep (colon_not_mem_of_digits hC)]
  simp only [List.map_cons, List.map_nil, List.length_cons, List.length_nil,
    jsNumber_of_digits hA, jsNumber_of_digits hB, jsNumber_of_digits hC, Option.getD_some]
  norm_num [List.getD]

lemma parseTimestamp_two_parts (A B : List Char)
    (hA : ∀ c ∈ A, isDigitChar c = true) (hB : ∀ c ∈ B, isDigitChar c = true) :
    parseTimestamp (String.mk (A ++ ':' :: B)) =
      ((digitsVal A : ℕ) : ℚ) * 60 + ((digitsVal B : ℕ) : ℚ) := by
  unfold parseTimestamp
  rw [string_toList_mk, jsSplitOn_append (colon_not_mem_of_digits hA),
    jsSplitOn_no_sep (colon_not_mem_of_digits hB)]
  simp only [List.map_cons, List.map_nil, List.length_cons, List.length_nil,
    jsNumber_of_digits hA, jsNumber_of_digits hB, Option.getD_some]
  norm_num [List.getD]

/-! ## Floor and remainder lemmas -/

lemma jsFloor_natCast_div (n k : ℕ) : jsFloor ((n : ℚ) / (k : ℚ)) = ((n / k : ℕ) : ℤ) := by
  unfold jsFloor
  exact_mod_cast Rat.floor_natCast_div_natCast n k

lemma jsMod_natCast (n k : ℕ) (hk : 0 < k) :
    jsMod (n : ℚ) (k : ℚ) = ((n % k : ℕ) : ℚ) := by
  unfold jsMod jsTrunc
  have hpos : ¬ ((n : ℚ) / (k : ℚ) < 0) :=
    not_lt.mpr (by positivity)
  rw [if_neg hpos]
  have hfl : ⌊(n : ℚ) / (k : ℚ)⌋ = ((n / k : ℕ) : ℤ) := by
    exact_mod_cast Rat.floor_natCast_div_natCast n k
  rw [hfl, Int.cast_natCast]
  have hdm : (k : ℚ) * ((n / k : ℕ) : ℚ) + ((n % k : ℕ) : ℚ) = (n : ℚ) := by
    exact_mod_cast congrArg (Nat.cast : ℕ → ℚ) (Nat.div_add_mod n k)
  linarith

lemma intRepr_natCast (a : ℕ) : intRepr ((a : ℕ) : ℤ) = natRepr a := by
  unfold intRepr
  rw [if_neg (not_lt.mpr (Int.natCast_nonneg a))]
  simp

lemma formatTimestamp_natCast (n : ℕ) :
    formatTimestamp (n : ℚ) =
      if 3600 ≤ n then
        String.mk (natRepr (n / 3600) ++ ':' ::
          (padStart2 (natRepr (n % 3600 / 60)) ++ ':' :: padStart2 (natRepr (n % 60))))
      else
        String.mk (natRepr (n % 3600 / 60) ++ ':' :: padStart2 (natRepr (n % 60))) := by
  unfold formatTimestamp
  have h1 : jsFloor ((n : ℚ) / 3600) = ((n / 3600 : ℕ) : ℤ) := by
    exact_mod_cast jsFloor_natCast_div n 3600
  have h2 : jsMod (n : ℚ) 3600 = ((n % 3600 : ℕ) : ℚ) := by
    exact_mod_cast jsMod_natCast n 3600 (by norm_num)
  have h3 : jsFloor (((n % 3600 : ℕ) : ℚ) / 60) = ((n % 3600 / 60 : ℕ) : ℤ) := by
    exact_mod_cast jsFloor_natCast_div (n % 3600) 60
  have h4 : jsMod (n : ℚ) 60 = ((n % 60 : ℕ) : ℚ) := by
    exact_mod_cast jsMod_natCast n 60 (by norm_num)
  have h5 : jsFloor ((n % 60 : ℕ) : ℚ) = ((n % 60 : ℕ) : ℤ) := by
    unfold jsFloor
    exact_mod_cast Int.floor_natCast (n % 60)
  dsimp only
  rw [h1, h2, h3, h4, h5, intRepr_natCast, intRepr_natCast, intRepr_natCast]
  by_cases hn : 3600 ≤ n
  · have hpos : (0 : ℤ) < ((n / 3600 : ℕ) : ℤ) := by
      exact_mod_cast Nat.div_pos hn (by norm_num)
    rw [if_pos hpos, if_pos hn]
  · have hz : n / 3600 = 0 := Nat.div_eq_of_lt (by omega)
    have hnpos : ¬ (0 : ℤ) < ((n / 3600 : ℕ) : ℤ) := by
      rw [hz]; simp
    rw [if_neg hnpos, if_neg hn]

/-! ## Claim C3 -/

/-- C3: for every nonnegative whole number of seconds, parsing the
formatted display string returns exactly the original value, and the three
named displays come out as stated. -/
theorem parse_format_roundtrip :
    (∀ n : ℕ, parseTimestamp (formatTimestamp (n : ℚ)) = (n : ℚ)) ∧
    formatTimestamp 0 = "0:00" ∧
    formatTimestamp 3661 = "1:01:01" ∧
    formatTimestamp 7325 = "2:02:05" := by
  refine ⟨?_, ?_, ?_, ?_⟩
  · intro n
    rw [formatTimestamp_natCast]
    by_cases hn : 3600 ≤ n
    · rw [if_pos hn,
        parseTimestamp_three_parts _ _ _ (natRepr_digits _)
          (padStart2_digits (natRepr_digits _)) (padStart2_digits (natRepr_digits _)),
        natRepr_val, digitsVal_padStart2, natRepr_val, digitsVal_padStart2, natRepr_val]
      have harith : n / 3600 * 3600 + n % 3600 / 60 * 60 + n % 60 = n := by omega
      exact_mod_cast congrArg (Nat.cast : ℕ → ℚ) harith
    · rw [if_neg hn,
        parseTimestamp_two_parts _ _ (natRepr_digits _) (padStart2_digits (natRepr_digits _)),
        natRepr_val, digitsVal_padStart2, natRepr_val]
      have harith : n % 3600 / 60 * 60 + n % 60 = n := by omega
      exact_mod_cast congrArg (Nat.cast : ℕ → ℚ) harith
  · norm_num [formatTimestamp, jsFloor, jsMod, jsTrunc]
    decide
  · norm_num [formatTimestamp, jsFloor, jsMod, jsTrunc]
    decide
  · norm_num [formatTimestamp, jsFloor, jsMod, jsTrunc]
    decide

/-! ## Claim C9 -/

/-- C9: parseTimestamp splits on the colon and combines the parts purely
arithmetically with no range validation: two parts give minutes times 60
plus seconds and three parts give hours times 3600 plus minutes times 60
plus seconds for arbitrary (also out-of-range) component values, and in
particular the out-of-range display 99:99 parses to 6039. -/
theorem parseTimestamp_arithmetic :
    (∀ a b : ℕ, parseTimestamp (String.mk (natRepr a ++ ':' :: natRepr b)) =
      (a : ℚ) * 60 + (b : ℚ)) ∧
    (∀ a b c : ℕ,
      parseTimestamp (String.mk (natRepr a ++ ':' :: (natRepr b ++ ':' :: natRepr c))) =
        (a : ℚ) * 3600 + (b : ℚ) * 60 + (c : ℚ)) ∧
    parseTimestamp "99:99" = 6039 := by
  refine ⟨?_, ?_, ?_⟩
  · intro a b
    rw [parseTimestamp_two_parts _ _ (natRepr_digits _) (natRepr_digits _),
      natRepr_val, natRepr_val]
  · intro a b c
    rw [parseTimestamp_three_parts _ _ _ (natRepr_digits _) (natRepr_digits _)
      (natRepr_digits _), natRepr_val, natRepr_val, natRepr_val]
  · simp +decide [parseTimestamp, jsSplitOn, jsNumber, digitsVal, isDigitChar]
    norm_num
